import Mathlib

/-!
Verification of the `otherwhere` data-ingestion core against its design notes.

Shallow embedding of
`src/data-ingestion/src/utils/normalizer.py` (class `FeatureNormalizer`) and
`src/data-ingestion/src/fetchers/geonames_loader.py` (`GeoNamesLoader.get_diverse_cities`).

Modelling conventions: Python floats are real numbers, Python `None` is
`Option.none`, and a raised `TypeError` is `Except.error PyErr.typeError`.
The normalizer's `self.stats` dict is threaded explicitly as a state value.
-/

namespace Otherwhere

/-- Python exceptions that the embedded normalizer code can raise. -/
inductive PyErr where
  | typeError
deriving DecidableEq

/-- The 16 feature fields of `DestinationFeatures` (`destination_schema.py`).
The constructor `nature_score` stands for the source field `nature_ratio`
(renamed in the Lean embedding only). -/
inductive FieldName where
  | avg_temp_c
  | tourism_density
  | wikipedia_pageviews
  | accommodation_density
  | population
  | population_density
  | coast_distance_km
  | nature_score
  | elevation
  | skiing_score
  | water_sports_score
  | hiking_score
  | wildlife_score
  | nightlife_density
  | development_level
  | gdp_per_capita
deriving DecidableEq

/-- `DestinationFeatures` (`destination_schema.py`): each field is a Python float
or `None`, modelled as `Option ℝ`.  The dataclass default for every field is
`0.0`.  The field `nature_score` embeds the source field `nature_ratio`. -/
structure DestinationFeatures where
  avg_temp_c : Option ℝ := some 0
  tourism_density : Option ℝ := some 0
  wikipedia_pageviews : Option ℝ := some 0
  accommodation_density : Option ℝ := some 0
  population : Option ℝ := some 0
  population_density : Option ℝ := some 0
  coast_distance_km : Option ℝ := some 0
  nature_score : Option ℝ := some 0
  elevation : Option ℝ := some 0
  skiing_score : Option ℝ := some 0
  water_sports_score : Option ℝ := some 0
  hiking_score : Option ℝ := some 0
  wildlife_score : Option ℝ := some 0
  nightlife_density : Option ℝ := some 0
  development_level : Option ℝ := some 0
  gdp_per_capita : Option ℝ := some 0

/-- `getattr(features, field_name)`. -/
def getField (n : FieldName) (f : DestinationFeatures) : Option ℝ :=
  match n with
  | .avg_temp_c => f.avg_temp_c
  | .tourism_density => f.tourism_density
  | .wikipedia_pageviews => f.wikipedia_pageviews
  | .accommodation_density => f.accommodation_density
  | .population => f.population
  | .population_density => f.population_density
  | .coast_distance_km => f.coast_distance_km
  | .nature_score => f.nature_score
  | .elevation => f.elevation
  | .skiing_score => f.skiing_score
  | .water_sports_score => f.water_sports_score
  | .hiking_score => f.hiking_score
  | .wildlife_score => f.wildlife_score
  | .nightlife_density => f.nightlife_density
  | .development_level => f.development_level
  | .gdp_per_capita => f.gdp_per_capita

/-- One entry of `self.stats`.  The degenerate entry written when a feature has
no positive observation carries only `min`, `max` and `median` in the source
dict, hence the percentile slots are optional here. -/
structure StatEntry where
  min : ℝ
  max : ℝ
  median : ℝ
  p25 : Option ℝ
  p75 : Option ℝ
  p90 : Option ℝ

/-- The content of `self.stats`: a dict from feature name to statistics entry. -/
def Stats : Type := FieldName → Option StatEntry

/-- `self.stats = {}` as set up by `FeatureNormalizer.__init__`. -/
def initStats : Stats := fun _ => none

/-- `np.min` of a nonempty array (the empty case is unreachable in the source,
which guards on `len(values_array) == 0`). -/
noncomputable def npMin : List ℝ → ℝ
  | [] => 0
  | x :: xs => xs.foldl min x

/-- `np.max` of a nonempty array. -/
noncomputable def npMax : List ℝ → ℝ
  | [] => 0
  | x :: xs => xs.foldl max x

/-- `np.percentile` with its default linear interpolation, for `q` in `[0,100]`. -/
noncomputable def npPercentile (l : List ℝ) (q : ℝ) : ℝ :=
  let s := List.insertionSort (fun a b : ℝ => a ≤ b) l
  let n := s.length
  let pos : ℝ := q / 100 * ((n : ℝ) - 1)
  let i : ℕ := ⌊pos⌋₊
  let lo := s.getD i 0
  let hi := s.getD (min (i + 1) (n - 1)) 0
  lo + (pos - (i : ℝ)) * (hi - lo)

/-- `np.median`, which agrees with the interpolated 50th percentile. -/
noncomputable def npMedian (l : List ℝ) : ℝ := npPercentile l 50

/-- The comprehension `[v for v in values if v is not None and v > 0]`. -/
noncomputable def posFilter (values : List (Option ℝ)) : List ℝ :=
  values.filterMap (fun o =>
    match o with
    | none => none
    | some v => if 0 < v then some v else none)

/-- The per-field body of `_calculate_statistics` (normalizer.py lines 52-66). -/
noncomputable def computeEntry (values : List (Option ℝ)) : StatEntry :=
  match posFilter values with
  | [] => ⟨0, 1, 0.5, none, none, none⟩
  | x :: xs =>
    ⟨npMin (x :: xs), npMax (x :: xs), npMedian (x :: xs),
     some (npPercentile (x :: xs) 25), some (npPercentile (x :: xs) 75),
     some (npPercentile (x :: xs) 90)⟩

/-- The column of values of one field across the batch, in batch order
(`feature_values[field_name]`). -/
def observedValues (n : FieldName) (dests : List DestinationFeatures) : List (Option ℝ) :=
  dests.map (getField n)

/-- `_calculate_statistics`: every destination contributes every one of the 16
field names, so on a nonempty batch every field gets a freshly computed entry;
on an empty batch no key is written and the dict is left as it was. -/
noncomputable def calculateStatistics (s : Stats) (dests : List DestinationFeatures) : Stats :=
  match dests with
  | [] => s
  | _ :: _ => fun n => some (computeEntry (observedValues n dests))

/-- `_normalize_linear` (handles `None` explicitly and returns `0.0` for it). -/
noncomputable def normalizeLinear (value : Option ℝ) (lo hi : ℝ) : ℝ :=
  match value with
  | none => 0
  | some v => if v ≤ lo then 0 else if hi ≤ v then 1 else (v - lo) / (hi - lo)

/-- `_normalize_percentile`.  Evaluating `value <= 0` with `value = None` raises
`TypeError` in Python 3, hence the error case. -/
noncomputable def normalizePercentile (s : Stats) (value : Option ℝ) (n : FieldName) :
    Except PyErr ℝ :=
  match value with
  | none => .error .typeError
  | some v =>
    if v ≤ 0 then .ok 0
    else
      match s n with
      | none => .ok 0.5
      | some e =>
        if e.max = e.min then .ok 0.5
        else .ok (min (max ((v - e.min) / (e.max - e.min)) 0) 1)

/-- `_normalize_value`: linear scaling between the stored `min` and `max` of the
named feature (the entry exists whenever statistics were computed on a
nonempty batch). -/
noncomputable def normalizeValue (s : Stats) (v : ℝ) (n : FieldName) : ℝ :=
  match s n with
  | none => 0.5
  | some e => normalizeLinear (some v) e.min e.max

/-- Lines 89-96 of normalizer.py: `if features.wikipedia_pageviews > 0:` applies
`np.log1p` (that is, `Real.log (1 + v)`) and then `_normalize_value`; otherwise
the feature is set to `0.0`.  Evaluating `None > 0` raises `TypeError`. -/
noncomputable def wikiStep (s : Stats) (value : Option ℝ) : Except PyErr ℝ :=
  match value with
  | none => .error .typeError
  | some v =>
    if 0 < v then .ok (normalizeValue s (Real.log (1 + v)) .wikipedia_pageviews)
    else .ok 0

/-- `_normalize_features`, with the per-field assignments in source order.
Python mutates the record in place and returns it, so on success the result is
also the post-call content of the input record. -/
noncomputable def normalizeFeatures (s : Stats) (f : DestinationFeatures) :
    Except PyErr DestinationFeatures := do
  let temp := normalizeLinear f.avg_temp_c (-15) 45
  let td ← normalizePercentile s f.tourism_density .tourism_density
  let ad ← normalizePercentile s f.accommodation_density .accommodation_density
  let nd ← normalizePercentile s f.nightlife_density .nightlife_density
  let wp ← wikiStep s f.wikipedia_pageviews
  let cd := normalizeLinear f.coast_distance_km 0 500
  let nr ← normalizePercentile s f.nature_score .nature_score
  let sk ← normalizePercentile s f.skiing_score .skiing_score
  let hk ← normalizePercentile s f.hiking_score .hiking_score
  let wl ← normalizePercentile s f.wildlife_score .wildlife_score
  Except.ok { f with
    avg_temp_c := some temp
    tourism_density := some td
    accommodation_density := some ad
    nightlife_density := some nd
    wikipedia_pageviews := some wp
    coast_distance_km := some cd
    nature_score := some nr
    skiing_score := some sk
    hiking_score := some hk
    wildlife_score := some wl }

/-- The pass-2 loop `for dest in destinations: dest.features = self._normalize_features(...)`;
the first raised exception propagates out of `normalize_all`. -/
noncomputable def normalizeList (s : Stats) :
    List DestinationFeatures → Except PyErr (List DestinationFeatures)
  | [] => .ok []
  | f :: fs => do
    let g ← normalizeFeatures s f
    let gs ← normalizeList s fs
    .ok (g :: gs)

/-- `normalize_all` as a state-passing function.  The first component is the
content of `self.stats` after the call, the second the returned batch (which,
because pass 2 rewrites `dest.features` in place, is also what the input
records hold after the call). -/
noncomputable def normalizeAllRun (s : Stats) (dests : List DestinationFeatures) :
    Stats × Except PyErr (List DestinationFeatures) :=
  match dests with
  | [] => (s, .ok [])
  | _ :: _ =>
    let s1 := calculateStatistics s dests
    (s1, normalizeList s1 dests)

/-!
### Diverse sampler (`geonames_loader.py`, `GeoNamesLoader.get_diverse_cities`)

The candidate catalog stands for the list returned by
`self.load_cities(min_population=50000)` (file input, external to the core).
-/

/-- The `Continent` enum of `destination_schema.py`. -/
inductive Continent where
  | europe
  | asia
  | africa
  | northAmerica
  | southAmerica
  | oceania
deriving DecidableEq

/-- A candidate city record as produced by `load_cities` (only the keys that
`get_diverse_cities` reads). -/
structure City where
  name : String
  country : String
  continent : Continent
  population : ℕ
deriving DecidableEq

/-- The per-country bucket of `by_country`: grouping preserves catalog order, so
the bucket for `k` is exactly the subsequence of catalog entries with
`city['country'] == k`. -/
def bucketRaw (catalog : List City) (k : String) : List City :=
  catalog.filter (fun c => c.country == k)

/-- `cities.sort(key=lambda c: c['population'], reverse=True)`: descending by
population. -/
def sortByPopDesc (l : List City) : List City :=
  List.insertionSort (fun a b => b.population ≤ a.population) l

/-- The capped bucket `by_country[country] = cities[:max_per_country]` after the
descending sort. -/
def cappedBucket (catalog : List City) (maxPerCountry : ℕ) (k : String) : List City :=
  (sortByPopDesc (bucketRaw catalog k)).take maxPerCountry

/-- The keys of the dict `by_country`, in insertion order (first occurrence of
each country in the catalog). -/
def countryKeys (catalog : List City) : List String :=
  catalog.foldl (fun acc c => if c.country ∈ acc then acc else acc ++ [c.country]) []

/-- `countries_by_continent[continent]`: the countries (in `by_country` key
order) whose capped bucket is nonempty and whose top entry lies on the given
continent. -/
def continentCountries (catalog : List City) (maxPerCountry : ℕ) (cont : Continent) :
    List String :=
  (countryKeys catalog).filter (fun k =>
    match cappedBucket catalog maxPerCountry k with
    | [] => false
    | x :: _ => x.continent == cont)

/-- The fixed continent split of `continent_quotas`, as percentages. -/
def contSplitPct (cont : Continent) : ℕ :=
  match cont with
  | .europe => 25
  | .asia => 30
  | .northAmerica => 15
  | .southAmerica => 10
  | .africa => 12
  | .oceania => 8

/-- `int(target * split)`: with the multiplication read over the rationals this
is the floor, i.e. `target * pct / 100` in natural division. -/
def contQuota (target : ℕ) (cont : Continent) : ℕ :=
  target * contSplitPct cont / 100

/-- The insertion order of the `continent_quotas` dict. -/
def continentOrder : List Continent :=
  [.europe, .asia, .northAmerica, .southAmerica, .africa, .oceania]

/-- One pass of `for country in countries: ...` inside the round-robin while
loop: take the next unconsumed entry of each country's bucket in turn, breaking
out as soon as the quota is reached.  Returns the updated `country_indices`,
the extended `selected`, and the `added_any` flag. -/
def sweep (buckets : String → List City) (quota : ℕ) :
    List String → (String → ℕ) → List City → Bool → (String → ℕ) × List City × Bool
  | [], idx, sel, added => (idx, sel, added)
  | c :: cs, idx, sel, added =>
    if h : idx c < (buckets c).length then
      if quota ≤ (sel ++ [(buckets c).get ⟨idx c, h⟩]).length then
        (fun k => if k = c then idx c + 1 else idx k,
         sel ++ [(buckets c).get ⟨idx c, h⟩], true)
      else
        sweep buckets quota cs (fun k => if k = c then idx c + 1 else idx k)
          (sel ++ [(buckets c).get ⟨idx c, h⟩]) true
    else sweep buckets quota cs idx sel added

/-- The `while len(selected) < quota` loop.  The fuel argument is only a
structural-recursion device: every iteration that loops again has appended at
least one record, so with initial fuel `quota` the fuel can reach `0` only
when `selected` already holds `quota` records, where the loop is exited by its
own condition; the fuel fallback branch is unreachable. -/
def rrLoopAux (buckets : String → List City) (countries : List String) (quota : ℕ) :
    ℕ → (String → ℕ) → List City → List City
  | 0, idx, sel =>
    if sel.length < quota then
      match sweep buckets quota countries idx sel false with
      | (_, sel1, _) => sel1
    else sel
  | fuel + 1, idx, sel =>
    if sel.length < quota then
      match sweep buckets quota countries idx sel false with
      | (idx1, sel1, added) =>
        if added then rrLoopAux buckets countries quota fuel idx1 sel1 else sel1
    else sel

/-- The full round-robin selection for one continent, starting from
`selected = []` and `country_indices = {c: 0}`. -/
def rrLoop (buckets : String → List City) (countries : List String) (quota : ℕ) : List City :=
  rrLoopAux buckets countries quota quota (fun _ => 0) []

/-- The per-continent body of the quota loop of `get_diverse_cities`
(`if not countries: continue` followed by the round-robin selection). -/
def selectForContinent (catalog : List City) (target maxPerCountry : ℕ)
    (cont : Continent) : List City :=
  match continentCountries catalog maxPerCountry cont with
  | [] => []
  | c :: cs =>
    rrLoop (cappedBucket catalog maxPerCountry) (c :: cs) (contQuota target cont)

/-- `get_diverse_cities`: concatenation of the per-continent selections in the
fixed `continent_quotas` order. -/
def getDiverseCities (catalog : List City) (target maxPerCountry : ℕ) : List City :=
  (continentOrder.map (selectForContinent catalog target maxPerCountry)).flatten

/-- The continent's available pool: the total number of capped per-country
entries over the continent's countries. -/
def contPool (catalog : List City) (maxPerCountry : ℕ) (cont : Continent) : ℕ :=
  ((continentCountries catalog maxPerCountry cont).map
    (fun k => (cappedBucket catalog maxPerCountry k).length)).sum

/-!
### Concrete test vectors, invariant predicates and order instances
-/

/-- A record holding the dataclass defaults: every feature is `0.0`. -/
noncomputable def zeroRec : DestinationFeatures := {}

/-- What `_normalize_features` makes of `zeroRec`: the only nonzero output is
the temperature, `(0 - (-15)) / (45 - (-15)) = 1/4`. -/
noncomputable def zeroOut : DestinationFeatures := { avg_temp_c := some (1 / 4) }

/-- A batch whose single record has a null `tourism_density`. -/
noncomputable def c3Batch : List DestinationFeatures := [{ tourism_density := none }]

/-- A batch whose single record has raw temperature `45`. -/
noncomputable def c5Batch : List DestinationFeatures := [{ avg_temp_c := some 45 }]

/-- The six fields `_normalize_features` leaves untouched. -/
def passThroughFields : List FieldName :=
  [.population, .population_density, .elevation, .water_sports_score,
   .development_level, .gdp_per_capita]

/-- "Is a (non-null) float in `[0, 1]`". -/
def InRange01 (o : Option ℝ) : Prop := ∃ v, o = some v ∧ 0 ≤ v ∧ v ≤ 1

/-- A batch whose single record carries a raw `population` of `2.0`. -/
noncomputable def c2Batch : List DestinationFeatures := [{ population := some 2 }]

/-- The seven fields normalized through `_normalize_percentile`. -/
def percentileFields : List FieldName :=
  [.tourism_density, .accommodation_density, .nightlife_density, .nature_score,
   .skiing_score, .hiking_score, .wildlife_score]

/-- A batch in which the only positive `tourism_density` observation is `2.0`. -/
noncomputable def c9Batch : List DestinationFeatures := [{ tourism_density := some 2 }]

/-- What `normalize_all` makes of `c9Batch`. -/
noncomputable def c9Out : DestinationFeatures :=
  { avg_temp_c := some (1 / 4), tourism_density := some 0.5 }

/-- The statistics computed by pass 1 on `c9Batch`. -/
noncomputable def c9Stats : Stats := calculateStatistics initStats c9Batch

/-- The spec scenario: raw `pageviews` of `0`, `10000` and `500000`. -/
noncomputable def c1Batch : List DestinationFeatures :=
  [{ wikipedia_pageviews := some 0 }, { wikipedia_pageviews := some 10000 },
   { wikipedia_pageviews := some 500000 }]

/-- The statistics computed by pass 1 on `c1Batch`: note they are taken over
the *raw* values, not over `ln(1+v)`. -/
noncomputable def c1Stats : Stats := calculateStatistics initStats c1Batch

/-- Loop invariant of the round-robin selection: the selected entries with
country `k` are exactly the first `idx k` entries of `k`'s capped bucket, each
consumption counter is within its bucket, countries outside the sweep list are
untouched, and the selection size is the total consumption. -/
def RRInv (buckets : String → List City) (countries : List String)
    (idx : String → ℕ) (sel : List City) : Prop :=
  (∀ k, sel.filter (fun x => x.country == k) = (buckets k).take (idx k)) ∧
  (∀ k, idx k ≤ (buckets k).length) ∧
  (∀ k, k ∉ countries → idx k = 0) ∧
  sel.length = (countries.map idx).sum

/-- A tiny concrete catalog: two European cities of one country. -/
def c6Catalog : List City :=
  [⟨"a", "X", .europe, 100⟩, ⟨"b", "X", .europe, 50⟩]

instance : IsTotal City (fun a b => b.population ≤ a.population) :=
  ⟨fun a b => le_total b.population a.population⟩

instance : IsTrans City (fun a b => b.population ≤ a.population) :=
  ⟨fun _ _ _ hab hbc => le_trans hbc hab⟩

/-!
### Basic lemmas about the embedded normalizer
-/

@[simp]
lemma except_bind_def {α β : Type} (e : Except PyErr α) (f : α → Except PyErr β) :
    e >>= f = e.bind f := rfl

@[simp]
lemma except_bind_ok {α β : Type} (a : α) (f : α → Except PyErr β) :
    Except.bind (.ok a) f = f a := rfl

@[simp]
lemma except_bind_error {α β : Type} (e : PyErr) (f : α → Except PyErr β) :
    Except.bind (.error e : Except PyErr α) f = .error e := rfl

lemma bindOk {α β : Type} {e : Except PyErr α} {f : α → Except PyErr β} {b : β}
    (h : e.bind f = .ok b) : ∃ a, e = .ok a ∧ f a = .ok b := by
  cases e with
  | error _ => simp at h
  | ok a => exact ⟨a, rfl, h⟩

/-- Inversion of a successful `_normalize_features` call: every percentile step
succeeded and the result is the input record with the ten normalized fields
overwritten. -/
lemma normalizeFeatures_ok_elim {s : Stats} {f g : DestinationFeatures}
    (h : normalizeFeatures s f = .ok g) :
    ∃ td ad nd wp nr sk hk wl,
      normalizePercentile s f.tourism_density .tourism_density = .ok td ∧
      normalizePercentile s f.accommodation_density .accommodation_density = .ok ad ∧
      normalizePercentile s f.nightlife_density .nightlife_density = .ok nd ∧
      wikiStep s f.wikipedia_pageviews = .ok wp ∧
      normalizePercentile s f.nature_score .nature_score = .ok nr ∧
      normalizePercentile s f.skiing_score .skiing_score = .ok sk ∧
      normalizePercentile s f.hiking_score .hiking_score = .ok hk ∧
      normalizePercentile s f.wildlife_score .wildlife_score = .ok wl ∧
      g = { f with
        avg_temp_c := some (normalizeLinear f.avg_temp_c (-15) 45)
        tourism_density := some td
        accommodation_density := some ad
        nightlife_density := some nd
        wikipedia_pageviews := some wp
        coast_distance_km := some (normalizeLinear f.coast_distance_km 0 500)
        nature_score := some nr
        skiing_score := some sk
        hiking_score := some hk
        wildlife_score := some wl } := by
  unfold normalizeFeatures at h
  simp only [except_bind_def] at h
  obtain ⟨td, htd, h⟩ := bindOk h
  obtain ⟨ad, had, h⟩ := bindOk h
  obtain ⟨nd, hnd, h⟩ := bindOk h
  obtain ⟨wp, hwp, h⟩ := bindOk h
  obtain ⟨nr, hnr, h⟩ := bindOk h
  obtain ⟨sk, hsk, h⟩ := bindOk h
  obtain ⟨hk, hhk, h⟩ := bindOk h
  obtain ⟨wl, hwl, h⟩ := bindOk h
  exact ⟨td, ad, nd, wp, nr, sk, hk, wl, htd, had, hnd, hwp, hnr, hsk, hhk, hwl,
    (Except.ok.inj h).symm⟩

/-- The pass-2 loop succeeds exactly when each record normalizes successfully,
in order. -/
lemma normalizeList_ok_iff (s : Stats) :
    ∀ (l out : List DestinationFeatures),
      normalizeList s l = .ok out ↔
        List.Forall₂ (fun f g => normalizeFeatures s f = .ok g) l out := by
  intro l
  induction l with
  | nil =>
    intro out
    simp [normalizeList, List.forall₂_nil_left_iff, eq_comm]
  | cons f fs ih =>
    intro out
    constructor
    · intro h
      simp only [normalizeList, except_bind_def] at h
      obtain ⟨g, hg, h⟩ := bindOk h
      obtain ⟨gs, hgs, h⟩ := bindOk h
      cases h
      exact List.Forall₂.cons hg ((ih gs).mp hgs)
    · intro h
      cases h with
      | cons hg hgs =>
        have h2 := (ih _).mpr hgs
        simp [normalizeList, hg, h2]

lemma forall₂_getElem_right {α β : Type} {R : α → β → Prop} :
    ∀ {l1 : List α} {l2 : List β}, List.Forall₂ R l1 l2 →
      ∀ {i : ℕ} {a : α}, l1[i]? = some a → ∃ b, l2[i]? = some b ∧ R a b := by
  intro l1 l2 h
  induction h with
  | nil => intro i a ha; simp at ha
  | cons hr _ ih =>
    intro i a ha
    cases i with
    | zero =>
      simp only [List.getElem?_cons_zero, Option.some.injEq] at ha
      subst ha
      exact ⟨_, by simp, hr⟩
    | succ j =>
      simp only [List.getElem?_cons_succ] at ha ⊢
      exact ih ha

lemma forall₂_mem_right {α β : Type} {R : α → β → Prop} :
    ∀ {l1 : List α} {l2 : List β}, List.Forall₂ R l1 l2 →
      ∀ {b : β}, b ∈ l2 → ∃ a ∈ l1, R a b := by
  intro l1 l2 h
  induction h with
  | nil => intro b hb; simp at hb
  | cons hr _ ih =>
    intro b hb
    rcases List.mem_cons.mp hb with hb | hb
    · subst hb; exact ⟨_, List.mem_cons_self _ _, hr⟩
    · obtain ⟨a, ha, hab⟩ := ih hb
      exact ⟨a, List.mem_cons_of_mem _ ha, hab⟩

/-- `_normalize_linear` always lands in `[0, 1]`, whatever the arguments. -/
lemma normalizeLinear_bounds (v : Option ℝ) (lo hi : ℝ) :
    0 ≤ normalizeLinear v lo hi ∧ normalizeLinear v lo hi ≤ 1 := by
  cases v with
  | none => simp [normalizeLinear]
  | some x =>
    simp only [normalizeLinear]
    rcases le_or_lt x lo with h1 | h1
    · rw [if_pos h1]; norm_num
    · rw [if_neg (not_le.mpr h1)]
      rcases le_or_lt hi x with h2 | h2
      · rw [if_pos h2]; norm_num
      · rw [if_neg (not_le.mpr h2)]
        constructor
        · exact div_nonneg (by linarith) (by linarith)
        · rw [div_le_one (by linarith)]; linarith

/-- A successful `_normalize_percentile` lands in `[0, 1]`. -/
lemma normalizePercentile_ok_bounds {s : Stats} {v : Option ℝ} {n : FieldName} {r : ℝ}
    (h : normalizePercentile s v n = .ok r) : 0 ≤ r ∧ r ≤ 1 := by
  cases v with
  | none => simp [normalizePercentile] at h
  | some x =>
    simp only [normalizePercentile] at h
    split at h
    · cases h; norm_num
    · cases hsn : s n with
      | none => simp only [hsn] at h; cases h; norm_num
      | some e =>
        simp only [hsn] at h
        by_cases hme : e.max = e.min
        · rw [if_pos hme] at h; cases h; norm_num
        · rw [if_neg hme] at h
          cases h
          exact ⟨le_min (le_max_right _ _) (by norm_num), min_le_right _ _⟩

/-- `_normalize_value` always lands in `[0, 1]`. -/
lemma normalizeValue_bounds (s : Stats) (v : ℝ) (n : FieldName) :
    0 ≤ normalizeValue s v n ∧ normalizeValue s v n ≤ 1 := by
  unfold normalizeValue
  cases s n with
  | none => norm_num
  | some e => exact normalizeLinear_bounds _ _ _

/-- A successful wikipedia step lands in `[0, 1]`. -/
lemma wikiStep_ok_bounds {s : Stats} {v : Option ℝ} {r : ℝ}
    (h : wikiStep s v = .ok r) : 0 ≤ r ∧ r ≤ 1 := by
  cases v with
  | none => simp [wikiStep] at h
  | some x =>
    simp only [wikiStep] at h
    split at h
    · cases h; exact normalizeValue_bounds _ _ _
    · cases h; norm_num

/-!
### Concrete batches used as test vectors
-/

lemma run_zero : (normalizeAllRun initStats [zeroRec]).2 = .ok [zeroOut] := by
  simp only [normalizeAllRun, normalizeList, normalizeFeatures, normalizePercentile,
    wikiStep, normalizeLinear, zeroRec, zeroOut, except_bind_def, except_bind_ok]
  norm_num

/-!
### Claim C3 — null raw value under a statistics-based strategy
-/

/-- Claim C3 (code evaluation at the failing input): on a batch containing a
record with a null percentile-relative value, `normalize_all` does not return
normalized vectors at all — `_normalize_percentile` evaluates `value <= 0` with
`value = None`, which raises `TypeError`.  The spec's null policy (null → 0) is
the documented intent; the code crashes instead. -/
theorem c3_null_percentile_raises :
    (normalizeAllRun initStats c3Batch).2 = .error .typeError := by
  simp only [normalizeAllRun, c3Batch, normalizeList, normalizeFeatures, normalizePercentile,
    except_bind_def, except_bind_ok, except_bind_error]

/-!
### Claim C4 — statistics lifetime
-/

/-- Claim C4 (counterexample): the statistics are *not* discarded when
`normalize_all` returns.  After a call on a one-record batch the normalizer
state still holds an entry for `avg_temp_c`, while the fresh state
(`__init__`'s empty dict) holds none: `self.stats` persists on the instance. -/
theorem c4_stats_survive_call :
    (normalizeAllRun initStats [zeroRec]).1 FieldName.avg_temp_c ≠
      initStats FieldName.avg_temp_c := by
  simp [normalizeAllRun, calculateStatistics, initStats]

/-- Claim C4 (amended): although `self.stats` persists across calls, a later
call can never observe statistics from an earlier run through `normalize_all`:
the returned batch is independent of the statistics state the call starts
from, because a nonempty call first overwrites every feature's entry and an
empty call consults no statistics. -/
theorem c4_no_cross_run_reuse (s1 s2 : Stats) (b : List DestinationFeatures) :
    (normalizeAllRun s1 b).2 = (normalizeAllRun s2 b).2 := by
  cases b <;> rfl

/-!
### Claim C10 — pass-through fields
-/

/-- Claim C10: `_normalize_features` never assigns `population`,
`population_density`, `elevation`, `water_sports_score`, `development_level`
or `gdp_per_capita`, so every returned record carries those six fields exactly
as they came in, whatever their values. -/
theorem c10_passthrough_unchanged (s : Stats) (b out : List DestinationFeatures)
    (h : (normalizeAllRun s b).2 = .ok out) :
    List.Forall₂ (fun f g =>
      g.population = f.population ∧ g.population_density = f.population_density ∧
      g.elevation = f.elevation ∧ g.water_sports_score = f.water_sports_score ∧
      g.development_level = f.development_level ∧ g.gdp_per_capita = f.gdp_per_capita) b out := by
  cases b with
  | nil =>
    simp only [normalizeAllRun] at h
    cases h
    exact List.Forall₂.nil
  | cons f0 fs =>
    simp only [normalizeAllRun] at h
    refine ((normalizeList_ok_iff _ _ _).mp h).imp ?_
    intro a g hg
    obtain ⟨td, ad, nd, wp, nr, sk, hk, wl, _, _, _, _, _, _, _, _, hgeq⟩ :=
      normalizeFeatures_ok_elim hg
    subst hgeq
    exact ⟨rfl, rfl, rfl, rfl, rfl, rfl⟩

/-- Witness for C10 at a concrete batch. -/
theorem c10_witness :
    List.Forall₂ (fun f g =>
      g.population = f.population ∧ g.population_density = f.population_density ∧
      g.elevation = f.elevation ∧ g.water_sports_score = f.water_sports_score ∧
      g.development_level = f.development_level ∧ g.gdp_per_capita = f.gdp_per_capita)
      [zeroRec] [zeroOut] :=
  c10_passthrough_unchanged initStats [zeroRec] [zeroOut] run_zero

/-!
### Claim C5 — the inputs are not consumed read-only
-/

/-- Claim C5 (counterexample): `normalize_all` returns the very records it was
given, rewritten in place (`dest.features = self._normalize_features(...)`), so
if the inputs kept their original raw values the returned list would equal the
input list.  It does not: the raw temperature `45` has been replaced by the
normalized `1.0`. -/
theorem c5_inputs_not_preserved :
    (normalizeAllRun initStats c5Batch).2 ≠ .ok c5Batch := by
  intro h
  simp only [normalizeAllRun, c5Batch, normalizeList, normalizeFeatures, normalizePercentile,
    wikiStep, normalizeLinear, except_bind_def, except_bind_ok] at h
  norm_num at h

/-- Claim C5 (amended): the normalizer mutates its inputs rather than reading
them read-only — after the call each input record holds the vector obtained by
normalizing its original raw values against the batch statistics, not the raw
values themselves. -/
theorem c5_inplace_rewrite (s : Stats) (b out : List DestinationFeatures)
    (h : (normalizeAllRun s b).2 = .ok out) :
    List.Forall₂ (fun f g => normalizeFeatures (calculateStatistics s b) f = .ok g) b out := by
  cases b with
  | nil =>
    simp only [normalizeAllRun] at h
    cases h
    exact List.Forall₂.nil
  | cons f0 fs =>
    simp only [normalizeAllRun] at h
    exact (normalizeList_ok_iff _ _ _).mp h

/-- Witness for the amended C5 at a concrete batch. -/
theorem c5_witness :
    List.Forall₂
      (fun f g => normalizeFeatures (calculateStatistics initStats [zeroRec]) f = .ok g)
      [zeroRec] [zeroOut] :=
  c5_inplace_rewrite initStats [zeroRec] [zeroOut] run_zero

/-!
### Claim C2 — range invariant
-/

/-- Claim C2 (counterexample): `normalize_all` emits the raw `population`
value `2.0` unchanged, which is outside `[0, 1]` — the range invariant fails
as stated. -/
theorem c2_range_violated :
    ((normalizeAllRun initStats c2Batch).2.map
        (fun l => l.map DestinationFeatures.population)) = .ok [some 2] ∧
      ¬((2 : ℝ) ≤ 1) := by
  constructor
  · simp only [normalizeAllRun, c2Batch, normalizeList, normalizeFeatures,
      normalizePercentile, wikiStep, except_bind_def, except_bind_ok]
    norm_num [Except.map]
  · norm_num

/-- Claim C2 (amended): if every pass-through field of every input record
already holds a value in `[0, 1]`, then every field of every record returned
by `normalize_all` is a (non-null) float in `[0, 1]`. -/
theorem c2_range_invariant (s : Stats) (b out : List DestinationFeatures)
    (hpt : ∀ f ∈ b, ∀ n ∈ passThroughFields, InRange01 (getField n f))
    (h : (normalizeAllRun s b).2 = .ok out) :
    ∀ g ∈ out, ∀ n : FieldName, InRange01 (getField n g) := by
  intro g hg n
  cases b with
  | nil =>
    simp only [normalizeAllRun] at h
    cases h
    simp at hg
  | cons f0 fs =>
    simp only [normalizeAllRun] at h
    obtain ⟨f, hf, hfg⟩ := forall₂_mem_right ((normalizeList_ok_iff _ _ _).mp h) hg
    obtain ⟨td, ad, nd, wp, nr, sk, hk, wl, htd, had, hnd, hwp, hnr, hsk, hhk, hwl, hgeq⟩ :=
      normalizeFeatures_ok_elim hfg
    subst hgeq
    have hpt2 := hpt f hf
    cases n with
    | avg_temp_c =>
      exact ⟨_, rfl, (normalizeLinear_bounds f.avg_temp_c (-15) 45).1,
        (normalizeLinear_bounds f.avg_temp_c (-15) 45).2⟩
    | tourism_density =>
      exact ⟨td, rfl, (normalizePercentile_ok_bounds htd).1, (normalizePercentile_ok_bounds htd).2⟩
    | wikipedia_pageviews =>
      exact ⟨wp, rfl, (wikiStep_ok_bounds hwp).1, (wikiStep_ok_bounds hwp).2⟩
    | accommodation_density =>
      exact ⟨ad, rfl, (normalizePercentile_ok_bounds had).1, (normalizePercentile_ok_bounds had).2⟩
    | population => exact hpt2 .population (by simp [passThroughFields])
    | population_density => exact hpt2 .population_density (by simp [passThroughFields])
    | coast_distance_km =>
      exact ⟨_, rfl, (normalizeLinear_bounds f.coast_distance_km 0 500).1,
        (normalizeLinear_bounds f.coast_distance_km 0 500).2⟩
    | nature_score =>
      exact ⟨nr, rfl, (normalizePercentile_ok_bounds hnr).1, (normalizePercentile_ok_bounds hnr).2⟩
    | elevation => exact hpt2 .elevation (by simp [passThroughFields])
    | skiing_score =>
      exact ⟨sk, rfl, (normalizePercentile_ok_bounds hsk).1, (normalizePercentile_ok_bounds hsk).2⟩
    | water_sports_score => exact hpt2 .water_sports_score (by simp [passThroughFields])
    | hiking_score =>
      exact ⟨hk, rfl, (normalizePercentile_ok_bounds hhk).1, (normalizePercentile_ok_bounds hhk).2⟩
    | wildlife_score =>
      exact ⟨wl, rfl, (normalizePercentile_ok_bounds hwl).1, (normalizePercentile_ok_bounds hwl).2⟩
    | nightlife_density =>
      exact ⟨nd, rfl, (normalizePercentile_ok_bounds hnd).1, (normalizePercentile_ok_bounds hnd).2⟩
    | development_level => exact hpt2 .development_level (by simp [passThroughFields])
    | gdp_per_capita => exact hpt2 .gdp_per_capita (by simp [passThroughFields])

/-- Witness for the amended C2, applied at the concrete output record and at
the `population` field. -/
theorem c2_witness : InRange01 (getField FieldName.population zeroOut) := by
  refine c2_range_invariant initStats [zeroRec] [zeroOut] ?_ run_zero zeroOut
    (List.mem_singleton.mpr rfl) FieldName.population
  intro f hf n hn
  simp only [List.mem_singleton] at hf
  subst hf
  fin_cases hn <;> exact ⟨0, rfl, le_refl 0, by norm_num⟩

/-!
### Claim C9 — degenerate statistics
-/

lemma foldl_min_mem (a : ℝ) (l : List ℝ) : l.foldl min a ∈ a :: l := by
  induction l generalizing a with
  | nil => simp
  | cons x xs ih =>
    simp only [List.foldl_cons]
    have h := ih (min a x)
    rcases List.mem_cons.mp h with h1 | h1
    · rw [h1]
      rcases min_choice a x with hc | hc <;> rw [hc]
      · exact List.mem_cons_self _ _
      · exact List.mem_cons_of_mem _ (List.mem_cons_self _ _)
    · exact List.mem_cons_of_mem _ (List.mem_cons_of_mem _ h1)

lemma foldl_max_mem (a : ℝ) (l : List ℝ) : l.foldl max a ∈ a :: l := by
  induction l generalizing a with
  | nil => simp
  | cons x xs ih =>
    simp only [List.foldl_cons]
    have h := ih (max a x)
    rcases List.mem_cons.mp h with h1 | h1
    · rw [h1]
      rcases max_choice a x with hc | hc <;> rw [hc]
      · exact List.mem_cons_self _ _
      · exact List.mem_cons_of_mem _ (List.mem_cons_self _ _)
    · exact List.mem_cons_of_mem _ (List.mem_cons_of_mem _ h1)

lemma npMin_mem (x : ℝ) (xs : List ℝ) : npMin (x :: xs) ∈ x :: xs := foldl_min_mem x xs

lemma npMax_mem (x : ℝ) (xs : List ℝ) : npMax (x :: xs) ∈ x :: xs := foldl_max_mem x xs

/-- When all positive observations coincide, the computed statistics are
degenerate: `max == min`. -/
lemma computeEntry_max_eq_min {values : List (Option ℝ)}
    (hall : ∀ x ∈ posFilter values, ∀ y ∈ posFilter values, x = y)
    (hne : posFilter values ≠ []) :
    (computeEntry values).max = (computeEntry values).min := by
  unfold computeEntry
  cases hp : posFilter values with
  | nil => exact absurd hp hne
  | cons x xs =>
    rw [hp] at hall
    exact hall _ (npMax_mem x xs) _ (npMin_mem x xs)

/-- Claim C9: if every positive observed value of a percentile-relative feature
is the same across the batch, a record with a positive raw value for that
feature is normalized to exactly `0.5`. -/
theorem c9_degenerate_half (s : Stats) (b out : List DestinationFeatures)
    (n : FieldName) (hn : n ∈ percentileFields)
    (i : ℕ) (f : DestinationFeatures) (hf : b[i]? = some f)
    (v : ℝ) (hv : getField n f = some v) (hvpos : 0 < v)
    (hall : ∀ x ∈ posFilter (observedValues n b), ∀ y ∈ posFilter (observedValues n b), x = y)
    (h : (normalizeAllRun s b).2 = .ok out) :
    ∃ g, out[i]? = some g ∧ getField n g = some 0.5 := by
  cases b with
  | nil => simp at hf
  | cons f0 fs =>
    simp only [normalizeAllRun] at h
    obtain ⟨g, hgi, hfg⟩ := forall₂_getElem_right ((normalizeList_ok_iff _ _ _).mp h) hf
    refine ⟨g, hgi, ?_⟩
    have hfmem : f ∈ f0 :: fs := List.getElem?_mem hf
    have hmem : v ∈ posFilter (observedValues n (f0 :: fs)) := by
      apply List.mem_filterMap.mpr
      refine ⟨some v, ?_, by simp [hvpos]⟩
      rw [← hv]
      exact List.mem_map_of_mem _ hfmem
    have hne : posFilter (observedValues n (f0 :: fs)) ≠ [] := by
      intro hE
      rw [hE] at hmem
      simp at hmem
    have hentry : calculateStatistics s (f0 :: fs) n
        = some (computeEntry (observedValues n (f0 :: fs))) := rfl
    have hmm := computeEntry_max_eq_min hall hne
    have hperc : normalizePercentile (calculateStatistics s (f0 :: fs)) (getField n f) n
        = .ok 0.5 := by
      rw [hv]
      simp only [normalizePercentile, hentry]
      rw [if_neg (not_le.mpr hvpos), if_pos hmm]
    obtain ⟨td, ad, nd, wp, nr, sk, hk, wl, htd, had, hnd, hwp, hnr, hsk, hhk, hwl, hgeq⟩ :=
      normalizeFeatures_ok_elim hfg
    subst hgeq
    fin_cases hn
    · simpa [getField] using Except.ok.inj (htd.symm.trans hperc)
    · simpa [getField] using Except.ok.inj (had.symm.trans hperc)
    · simpa [getField] using Except.ok.inj (hnd.symm.trans hperc)
    · simpa [getField] using Except.ok.inj (hnr.symm.trans hperc)
    · simpa [getField] using Except.ok.inj (hsk.symm.trans hperc)
    · simpa [getField] using Except.ok.inj (hhk.symm.trans hperc)
    · simpa [getField] using Except.ok.inj (hwl.symm.trans hperc)

lemma c9_pf : posFilter (observedValues FieldName.tourism_density c9Batch) = [2] := by
  simp [c9Batch, observedValues, posFilter, getField]

lemma c9_perc_zero (n : FieldName) : normalizePercentile c9Stats (some 0) n = .ok 0 := by
  simp [normalizePercentile]

lemma c9_wiki : wikiStep c9Stats (some 0) = .ok 0 := by
  simp [wikiStep]

lemma c9_perc_two :
    normalizePercentile c9Stats (some 2) FieldName.tourism_density = .ok 0.5 := by
  have hentry : c9Stats FieldName.tourism_density
      = some (computeEntry (observedValues FieldName.tourism_density c9Batch)) := rfl
  have hmm : (computeEntry (observedValues FieldName.tourism_density c9Batch)).max
      = (computeEntry (observedValues FieldName.tourism_density c9Batch)).min := by
    refine computeEntry_max_eq_min ?_ (by rw [c9_pf]; simp)
    rw [c9_pf]
    intro x hx y hy
    simp at hx hy
    rw [hx, hy]
  simp only [normalizePercentile, hentry]
  rw [if_neg (by norm_num), if_pos hmm]

lemma run_c9 : (normalizeAllRun initStats c9Batch).2 = .ok [c9Out] := by
  have hrun : (normalizeAllRun initStats c9Batch).2 = normalizeList c9Stats c9Batch := rfl
  rw [hrun]
  simp only [c9Batch, normalizeList, normalizeFeatures, except_bind_def]
  simp only [c9_perc_zero, c9_perc_two, c9_wiki, except_bind_ok]
  simp only [c9Out, normalizeLinear]
  norm_num

/-- Witness for C9 at a concrete batch. -/
theorem c9_witness :
    ∃ g, ([c9Out] : List DestinationFeatures)[0]? = some g ∧
      getField FieldName.tourism_density g = some 0.5 := by
  refine c9_degenerate_half initStats c9Batch [c9Out] FieldName.tourism_density
    (by simp [percentileFields]) 0 { tourism_density := some 2 } (by simp [c9Batch])
    2 rfl (by norm_num) ?_ run_c9
  intro x hx y hy
  rw [c9_pf] at hx hy
  simp at hx hy
  rw [hx, hy]

/-!
### Claim C1 — log-then-relative scaling of `wikipedia_pageviews`
-/

lemma normalizeValue_entry {s : Stats} {n : FieldName} {e : StatEntry} (he : s n = some e)
    (v : ℝ) : normalizeValue s v n = normalizeLinear (some v) e.min e.max := by
  unfold normalizeValue
  rw [he]

lemma log_10001_le : Real.log 10001 ≤ 10000 := by
  have h := Real.log_le_sub_one_of_pos (show (0 : ℝ) < 10001 by norm_num)
  linarith

lemma log_500001_le : Real.log 500001 ≤ 10000 := by
  have hs : Real.sqrt 500001 ≤ 708 := by
    calc Real.sqrt 500001 ≤ Real.sqrt (708 ^ 2) :=
          Real.sqrt_le_sqrt (by norm_num)
      _ = 708 := Real.sqrt_sq (by norm_num)
  have hlog : Real.log (Real.sqrt 500001) ≤ Real.sqrt 500001 - 1 :=
    Real.log_le_sub_one_of_pos (Real.sqrt_pos.mpr (by norm_num))
  have heq : Real.log (Real.sqrt 500001) = Real.log 500001 / 2 :=
    Real.log_sqrt (by norm_num)
  linarith

lemma c1_pf : posFilter (observedValues FieldName.wikipedia_pageviews c1Batch)
    = [10000, 500000] := by
  simp [c1Batch, observedValues, posFilter, getField]

lemma c1_entry : c1Stats FieldName.wikipedia_pageviews
    = some (computeEntry (observedValues FieldName.wikipedia_pageviews c1Batch)) := rfl

lemma c1_min : (computeEntry (observedValues FieldName.wikipedia_pageviews c1Batch)).min
    = 10000 := by
  unfold computeEntry
  rw [c1_pf]
  show npMin [10000, 500000] = 10000
  simp only [npMin, List.foldl_cons, List.foldl_nil]
  exact min_eq_left (by norm_num)

lemma c1_max : (computeEntry (observedValues FieldName.wikipedia_pageviews c1Batch)).max
    = 500000 := by
  unfold computeEntry
  rw [c1_pf]
  show npMax [10000, 500000] = 500000
  simp only [npMax, List.foldl_cons, List.foldl_nil]
  exact max_eq_right (by norm_num)

lemma c1_wiki0 : wikiStep c1Stats (some 0) = .ok 0 := by
  simp [wikiStep]

lemma c1_wiki1 : wikiStep c1Stats (some 10000) = .ok 0 := by
  simp only [wikiStep]
  rw [if_pos (by norm_num : (0 : ℝ) < 10000)]
  rw [normalizeValue_entry c1_entry]
  rw [c1_min, c1_max]
  rw [show (1 : ℝ) + 10000 = 10001 from by norm_num]
  simp only [normalizeLinear]
  rw [if_pos log_10001_le]

lemma c1_wiki2 : wikiStep c1Stats (some 500000) = .ok 0 := by
  simp only [wikiStep]
  rw [if_pos (by norm_num : (0 : ℝ) < 500000)]
  rw [normalizeValue_entry c1_entry]
  rw [c1_min, c1_max]
  rw [show (1 : ℝ) + 500000 = 500001 from by norm_num]
  simp only [normalizeLinear]
  rw [if_pos log_500001_le]

lemma c1_perc_zero (n : FieldName) : normalizePercentile c1Stats (some 0) n = .ok 0 := by
  simp [normalizePercentile]

/-- Claim C1 (code evaluation at the failing input): `_calculate_statistics`
computes `min`/`max` over the *raw* positive pageview counts (`10000` and
`500000`), while `_normalize_features` feeds `_normalize_value` the
log-transformed value `ln(1+v)` (about `9.21` and `13.12`).  Both log values
fall below the raw minimum, so all three normalized pageview outputs are `0` —
not strictly increasing as the spec scenario requires. -/
theorem c1_pageviews_collapse :
    ((normalizeAllRun initStats c1Batch).2.map
      (fun l => l.map DestinationFeatures.wikipedia_pageviews)) = .ok [some 0, some 0, some 0] := by
  have hrun : (normalizeAllRun initStats c1Batch).2 = normalizeList c1Stats c1Batch := rfl
  rw [hrun]
  simp only [c1Batch, normalizeList, normalizeFeatures, except_bind_def]
  simp only [c1_perc_zero, c1_wiki0, c1_wiki1, c1_wiki2, except_bind_ok]
  simp [Except.map]

/-!
### Round-robin loop invariants
-/

lemma sum_map_update_succ :
    ∀ (countries : List String), countries.Nodup → ∀ c ∈ countries, ∀ idx : String → ℕ,
      (countries.map fun k => if k = c then idx c + 1 else idx k).sum
        = (countries.map idx).sum + 1 := by
  intro countries
  induction countries with
  | nil => intro _ c hc _; cases hc
  | cons a as ih =>
    intro hnd c hc idx
    rcases List.mem_cons.mp hc with rfl | hc2
    · simp only [List.map_cons, List.sum_cons, if_true]
      have hmap : (as.map fun k => if k = c then idx c + 1 else idx k) = as.map idx := by
        apply List.map_congr_left
        intro k hk
        rw [if_neg]
        intro hkc
        subst hkc
        exact (List.nodup_cons.mp hnd).1 hk
      rw [hmap]
      omega
    · have hac : a ≠ c := by
        rintro rfl
        exact (List.nodup_cons.mp hnd).1 hc2
      simp only [List.map_cons, List.sum_cons]
      rw [if_neg hac, ih (List.nodup_cons.mp hnd).2 c hc2 idx]
      omega

lemma rrinv_init (buckets : String → List City) (countries : List String) :
    RRInv buckets countries (fun _ => 0) [] := by
  refine ⟨fun k => by simp, fun k => Nat.zero_le _, fun k _ => rfl, ?_⟩
  simp

lemma rrinv_append {buckets : String → List City} {countries : List String}
    (Hb : ∀ k, ∀ x ∈ buckets k, x.country = k) (Hnd : countries.Nodup)
    {idx : String → ℕ} {sel : List City} {c : String} (hc : c ∈ countries)
    (hinv : RRInv buckets countries idx sel) (hlt : idx c < (buckets c).length) :
    RRInv buckets countries (fun k => if k = c then idx c + 1 else idx k)
      (sel ++ [(buckets c).get ⟨idx c, hlt⟩]) := by
  obtain ⟨hfil, hle, hzero, hsum⟩ := hinv
  have hx : ((buckets c).get ⟨idx c, hlt⟩).country = c :=
    Hb c _ (List.get_mem _ _ _)
  rw [List.get_eq_getElem] at hx
  refine ⟨?_, ?_, ?_, ?_⟩
  · intro k
    show List.filter (fun x => x.country == k) (sel ++ [(buckets c).get ⟨idx c, hlt⟩])
      = (buckets k).take (if k = c then idx c + 1 else idx k)
    rw [List.filter_append]
    by_cases hk : k = c
    · subst hk
      rw [if_pos rfl]
      have hone : List.filter (fun x => x.country == k) [(buckets k).get ⟨idx k, hlt⟩]
          = [(buckets k).get ⟨idx k, hlt⟩] := by
        simp [List.filter_cons, hx]
      rw [hone, hfil k]
      simp [List.get_eq_getElem]
    · rw [if_neg hk]
      have hnone : List.filter (fun x => x.country == k) [(buckets c).get ⟨idx c, hlt⟩]
          = [] := by
        simp [List.filter_cons, hx, Ne.symm hk]
      rw [hnone, List.append_nil]
      exact hfil k
  · intro k
    show (if k = c then idx c + 1 else idx k) ≤ (buckets k).length
    by_cases hk : k = c
    · subst hk; rw [if_pos rfl]; omega
    · rw [if_neg hk]; exact hle k
  · intro k hkc
    have hkne : k ≠ c := fun h => hkc (h ▸ hc)
    show (if k = c then idx c + 1 else idx k) = 0
    rw [if_neg hkne]
    exact hzero k hkc
  · rw [List.length_append, hsum, sum_map_update_succ countries Hnd c hc idx]
    simp

/-- Main properties of one sweep of the `for country in countries` loop. -/
lemma sweep_spec {buckets : String → List City} {countries : List String} {quota : ℕ}
    (Hb : ∀ k, ∀ x ∈ buckets k, x.country = k) (Hnd : countries.Nodup) :
    ∀ (cs : List String) (idx : String → ℕ) (sel : List City) (a : Bool)
      (idx1 : String → ℕ) (sel1 : List City) (added : Bool),
      (∀ c ∈ cs, c ∈ countries) →
      RRInv buckets countries idx sel → sel.length < quota →
      sweep buckets quota cs idx sel a = (idx1, sel1, added) →
      RRInv buckets countries idx1 sel1 ∧
      sel.length ≤ sel1.length ∧ sel1.length ≤ quota ∧
      (added = false → idx1 = idx ∧ sel1 = sel ∧ a = false ∧
        ∀ c ∈ cs, (buckets c).length ≤ idx c) ∧
      (added = true → a = false → sel.length < sel1.length) := by
  intro cs
  induction cs with
  | nil =>
    intro idx sel a idx1 sel1 added hsub hinv hlt heq
    simp only [sweep, Prod.mk.injEq] at heq
    obtain ⟨rfl, rfl, rfl⟩ := heq
    refine ⟨hinv, le_refl _, le_of_lt hlt, ?_, ?_⟩
    · intro ha
      exact ⟨rfl, rfl, ha, fun c hc => absurd hc (List.not_mem_nil c)⟩
    · intro hadd ha
      rw [ha] at hadd
      cases hadd
  | cons c cs ih =>
    intro idx sel a idx1 sel1 added hsub hinv hlt heq
    have hcmem : c ∈ countries := hsub c (List.mem_cons_self _ _)
    by_cases h : idx c < (buckets c).length
    · simp only [sweep] at heq
      rw [dif_pos h] at heq
      have hinv1 : RRInv buckets countries (fun k => if k = c then idx c + 1 else idx k)
          (sel ++ [(buckets c).get ⟨idx c, h⟩]) := rrinv_append Hb Hnd hcmem hinv h
      by_cases hq : quota ≤ (sel ++ [(buckets c).get ⟨idx c, h⟩]).length
      · rw [if_pos hq] at heq
        simp only [Prod.mk.injEq] at heq
        obtain ⟨rfl, rfl, rfl⟩ := heq
        have hlen : (sel ++ [(buckets c).get ⟨idx c, h⟩]).length = sel.length + 1 := by
          simp
        refine ⟨hinv1, by omega, by omega, ?_, ?_⟩
        · intro hfalse; cases hfalse
        · intro _ _; omega
      · rw [if_neg hq] at heq
        have hlt1 : (sel ++ [(buckets c).get ⟨idx c, h⟩]).length < quota := by omega
        obtain ⟨hinvr, hgrow, hler, hfalser, _⟩ :=
          ih _ _ _ _ _ _ (fun d hd => hsub d (List.mem_cons_of_mem _ hd)) hinv1 hlt1 heq
        have hlen : (sel ++ [(buckets c).get ⟨idx c, h⟩]).length = sel.length + 1 := by
          simp
        refine ⟨hinvr, by omega, hler, ?_, ?_⟩
        · intro hfalse
          obtain ⟨_, _, hcontra, _⟩ := hfalser hfalse
          cases hcontra
        · intro _ _
          omega
    · simp only [sweep] at heq
      rw [dif_neg h] at heq
      obtain ⟨hinvr, hgrow, hler, hfalser, htruer⟩ :=
        ih _ _ _ _ _ _ (fun d hd => hsub d (List.mem_cons_of_mem _ hd)) hinv hlt heq
      refine ⟨hinvr, hgrow, hler, ?_, htruer⟩
      intro hfalse
      obtain ⟨h1, h2, h3, h4⟩ := hfalser hfalse
      refine ⟨h1, h2, h3, fun d hd => ?_⟩
      rcases List.mem_cons.mp hd with rfl | hd2
      · omega
      · exact h4 d hd2

lemma rrLoopAux_stop {buckets : String → List City} {countries : List String}
    {quota fuel : ℕ} {idx : String → ℕ} {sel : List City} (h : ¬ sel.length < quota) :
    rrLoopAux buckets countries quota fuel idx sel = sel := by
  cases fuel with
  | zero => simp only [rrLoopAux]; rw [if_neg h]
  | succ n => simp only [rrLoopAux]; rw [if_neg h]

lemma rrLoopAux_step_false {buckets : String → List City} {countries : List String}
    {quota fuel : ℕ} {idx idx1 : String → ℕ} {sel sel1 : List City}
    (hlt : sel.length < quota)
    (hsw : sweep buckets quota countries idx sel false = (idx1, sel1, false)) :
    rrLoopAux buckets countries quota fuel idx sel = sel1 := by
  cases fuel with
  | zero => simp only [rrLoopAux]; rw [if_pos hlt, hsw]
  | succ n => simp only [rrLoopAux]; rw [if_pos hlt, hsw]; rfl

lemma rrLoopAux_step_true {buckets : String → List City} {countries : List String}
    {quota fuel : ℕ} {idx idx1 : String → ℕ} {sel sel1 : List City}
    (hlt : sel.length < quota)
    (hsw : sweep buckets quota countries idx sel false = (idx1, sel1, true)) :
    rrLoopAux buckets countries quota (fuel + 1) idx sel
      = rrLoopAux buckets countries quota fuel idx1 sel1 := by
  simp only [rrLoopAux]
  rw [if_pos hlt, hsw]
  rfl

/-- Main properties of the `while len(selected) < quota` loop, for any
sufficient fuel. -/
lemma rrLoopAux_spec {buckets : String → List City} {countries : List String} {quota : ℕ}
    (Hb : ∀ k, ∀ x ∈ buckets k, x.country = k) (Hnd : countries.Nodup) :
    ∀ (fuel : ℕ) (idx : String → ℕ) (sel : List City),
      RRInv buckets countries idx sel →
      sel.length ≤ quota → quota ≤ fuel + sel.length →
      ∃ idx2,
        RRInv buckets countries idx2 (rrLoopAux buckets countries quota fuel idx sel) ∧
        (rrLoopAux buckets countries quota fuel idx sel).length ≤ quota ∧
        ((rrLoopAux buckets countries quota fuel idx sel).length = quota ∨
          ∀ c ∈ countries, idx2 c = (buckets c).length) := by
  intro fuel
  induction fuel with
  | zero =>
    intro idx sel hinv hle hfuel
    have hnlt : ¬ sel.length < quota := by omega
    refine ⟨idx, ?_⟩
    rw [rrLoopAux_stop hnlt]
    exact ⟨hinv, hle, Or.inl (by omega)⟩
  | succ fuel ih =>
    intro idx sel hinv hle hfuel
    by_cases hlt : sel.length < quota
    · rcases hsw : sweep buckets quota countries idx sel false with ⟨idx1, sel1, added⟩
      obtain ⟨hinv1, hgrow, hle1, hfalse, htrue⟩ :=
        sweep_spec Hb Hnd countries idx sel false idx1 sel1 added
          (fun c hc => hc) hinv hlt hsw
      cases added with
      | false =>
        obtain ⟨hidx, hsel, _, hexh⟩ := hfalse rfl
        refine ⟨idx, ?_⟩
        rw [rrLoopAux_step_false hlt hsw, hsel]
        refine ⟨hinv, hle, Or.inr fun c hc => le_antisymm (hinv.2.1 c) (hexh c hc)⟩
      | true =>
        have hprog : sel.length < sel1.length := htrue rfl rfl
        obtain ⟨idx2, h1, h2, h3⟩ := ih idx1 sel1 hinv1 hle1 (by omega)
        refine ⟨idx2, ?_⟩
        rw [rrLoopAux_step_true hlt hsw]
        exact ⟨h1, h2, h3⟩
    · refine ⟨idx, ?_⟩
      rw [rrLoopAux_stop hlt]
      exact ⟨hinv, hle, Or.inl (by omega)⟩

/-!
### Per-continent selection facts
-/

lemma cappedBucket_country (catalog : List City) (maxPerCountry : ℕ) (k : String) :
    ∀ x ∈ cappedBucket catalog maxPerCountry k, x.country = k := by
  intro x hx
  have hx2 : x ∈ sortByPopDesc (bucketRaw catalog k) := List.mem_of_mem_take hx
  have hx3 : x ∈ bucketRaw catalog k := by
    unfold sortByPopDesc at hx2
    exact (List.mem_insertionSort _).mp hx2
  exact eq_of_beq (List.mem_filter.mp hx3).2

lemma countryKeys_nodup (catalog : List City) : (countryKeys catalog).Nodup := by
  suffices h : ∀ (l : List City) (acc : List String), acc.Nodup →
      (l.foldl (fun acc c => if c.country ∈ acc then acc else acc ++ [c.country]) acc).Nodup by
    exact h catalog [] List.nodup_nil
  intro l
  induction l with
  | nil => intro acc h; exact h
  | cons x xs ih =>
    intro acc h
    simp only [List.foldl_cons]
    by_cases hm : x.country ∈ acc
    · rw [if_pos hm]; exact ih acc h
    · rw [if_neg hm]
      apply ih
      rw [List.nodup_append]
      exact ⟨h, List.nodup_singleton _, by simpa using hm⟩

lemma continentCountries_nodup (catalog : List City) (maxPerCountry : ℕ) (cont : Continent) :
    (continentCountries catalog maxPerCountry cont).Nodup :=
  (countryKeys_nodup catalog).filter _

/-- Every country is assigned to at most one continent. -/
lemma continentCountries_unique {catalog : List City} {maxPerCountry : ℕ} {k : String}
    {c1 c2 : Continent} (h1 : k ∈ continentCountries catalog maxPerCountry c1)
    (h2 : k ∈ continentCountries catalog maxPerCountry c2) : c1 = c2 := by
  simp only [continentCountries, List.mem_filter] at h1 h2
  obtain ⟨-, hb1⟩ := h1
  obtain ⟨-, hb2⟩ := h2
  cases hcb : cappedBucket catalog maxPerCountry k with
  | nil => rw [hcb] at hb1; simp at hb1
  | cons x xs =>
    rw [hcb] at hb1 hb2
    simp only [beq_iff_eq] at hb1 hb2
    rw [← hb1, ← hb2]

/-- Combined specification of the per-continent round-robin selection. -/
lemma selectForContinent_spec (catalog : List City) (target maxPerCountry : ℕ)
    (cont : Continent) :
    ∃ idx2,
      RRInv (cappedBucket catalog maxPerCountry) (continentCountries catalog maxPerCountry cont)
        idx2 (selectForContinent catalog target maxPerCountry cont) ∧
      (selectForContinent catalog target maxPerCountry cont).length ≤ contQuota target cont ∧
      ((selectForContinent catalog target maxPerCountry cont).length = contQuota target cont ∨
        ∀ c ∈ continentCountries catalog maxPerCountry cont,
          idx2 c = (cappedBucket catalog maxPerCountry c).length) := by
  cases hcc : continentCountries catalog maxPerCountry cont with
  | nil =>
    refine ⟨fun _ => 0, ?_⟩
    simp only [selectForContinent, hcc]
    exact ⟨rrinv_init _ _, Nat.zero_le _, Or.inr fun c hc => absurd hc (List.not_mem_nil c)⟩
  | cons c0 cs =>
    have hnd : (c0 :: cs).Nodup := hcc ▸ continentCountries_nodup catalog maxPerCountry cont
    have hsel : selectForContinent catalog target maxPerCountry cont
        = rrLoopAux (cappedBucket catalog maxPerCountry) (c0 :: cs) (contQuota target cont)
            (contQuota target cont) (fun _ => 0) [] := by
      simp only [selectForContinent, hcc, rrLoop]
    obtain ⟨idx2, h1, h2, h3⟩ :=
      @rrLoopAux_spec (cappedBucket catalog maxPerCountry) (c0 :: cs) (contQuota target cont)
        (fun k => cappedBucket_country catalog maxPerCountry k) hnd
        (contQuota target cont) (fun _ => 0) [] (rrinv_init _ _) (Nat.zero_le _) (by simp)
    refine ⟨idx2, ?_, ?_, ?_⟩
    · rw [hsel]
      exact h1
    · rw [hsel]
      exact h2
    · rcases h3 with h | h
      · exact Or.inl (by rw [hsel]; exact h)
      · exact Or.inr h

/-!
### Claim C6 — continent quotas
-/

/-- Claim C6: for every catalog and target, each continent receives at most
`floor(target * split)` records, with equality whenever the continent's pool of
capped per-country entries is at least that large. -/
theorem c6_quota_invariant (catalog : List City) (target maxPerCountry : ℕ)
    (cont : Continent) :
    (selectForContinent catalog target maxPerCountry cont).length ≤ contQuota target cont ∧
    (contQuota target cont ≤ contPool catalog maxPerCountry cont →
      (selectForContinent catalog target maxPerCountry cont).length
        = contQuota target cont) := by
  obtain ⟨idx2, hinv, hle, hdisj⟩ := selectForContinent_spec catalog target maxPerCountry cont
  refine ⟨hle, fun hpool => ?_⟩
  rcases hdisj with h | h
  · exact h
  · have hsum : (selectForContinent catalog target maxPerCountry cont).length
        = contPool catalog maxPerCountry cont := by
      rw [hinv.2.2.2]
      unfold contPool
      exact congrArg List.sum (List.map_congr_left h)
    omega

/-- Witness for C6: with target 4 the European quota is 1, the pool holds 2
entries, and exactly 1 record is selected. -/
theorem c6_witness :
    contQuota 4 Continent.europe ≤ contPool c6Catalog 10 Continent.europe ∧
    (selectForContinent c6Catalog 4 10 Continent.europe).length
      = contQuota 4 Continent.europe :=
  ⟨by decide, (c6_quota_invariant c6Catalog 4 10 Continent.europe).2 (by decide)⟩

/-!
### Claim C7 — per-country cap and ordering
-/

/-- Over any duplicate-free list of continents, the output records of country
`k` form a prefix of `k`'s capped bucket; moreover a nonempty contribution
pins `k` to one of the processed continents. -/
lemma filter_flatten_take (catalog : List City) (target maxPerCountry : ℕ) (k : String) :
    ∀ (conts : List Continent), conts.Nodup →
      ∃ m, ((conts.map (selectForContinent catalog target maxPerCountry)).flatten.filter
          (fun x => x.country == k)) = (cappedBucket catalog maxPerCountry k).take m ∧
        (m ≠ 0 → ∃ c ∈ conts, k ∈ continentCountries catalog maxPerCountry c) := by
  intro conts
  induction conts with
  | nil =>
    intro _
    exact ⟨0, by simp, fun h => absurd rfl h⟩
  | cons c cs ih =>
    intro hnd
    obtain ⟨m2, hm2, hside2⟩ := ih (List.nodup_cons.mp hnd).2
    obtain ⟨idx2, hinv, -, -⟩ := selectForContinent_spec catalog target maxPerCountry c
    have hfil := hinv.1 k
    have hzero := hinv.2.2.1
    simp only [List.map_cons, List.flatten_cons, List.filter_append]
    by_cases hm : idx2 k = 0
    · refine ⟨m2, ?_, ?_⟩
      · rw [hfil, hm, hm2]
        simp
      · intro hm2ne
        obtain ⟨c2, hc2, hkc2⟩ := hside2 hm2ne
        exact ⟨c2, List.mem_cons_of_mem _ hc2, hkc2⟩
    · have hkc : k ∈ continentCountries catalog maxPerCountry c := by
        by_contra hnk
        exact hm (hzero k hnk)
      have hm2zero : m2 = 0 := by
        by_contra hm2ne
        obtain ⟨c2, hc2, hkc2⟩ := hside2 hm2ne
        have hceq : c = c2 := continentCountries_unique hkc hkc2
        exact (List.nodup_cons.mp hnd).1 (hceq ▸ hc2)
      refine ⟨idx2 k, ?_, fun _ => ⟨c, List.mem_cons_self _ _, hkc⟩⟩
      rw [hfil, hm2, hm2zero]
      simp

/-- Claim C7: each country contributes at most `max_per_country` records to the
output, and its contribution is a prefix of its catalog entries sorted by
descending population — its highest-population entries, in descending order. -/
theorem c7_country_cap (catalog : List City) (target maxPerCountry : ℕ)
    (hmax : 1 ≤ maxPerCountry) (k : String) :
    ((getDiverseCities catalog target maxPerCountry).filter
        (fun x => x.country == k)).length ≤ maxPerCountry ∧
    ∃ m, m ≤ maxPerCountry ∧
      (getDiverseCities catalog target maxPerCountry).filter (fun x => x.country == k)
        = (sortByPopDesc (bucketRaw catalog k)).take m ∧
      List.Sorted (fun a b : City => b.population ≤ a.population)
        ((getDiverseCities catalog target maxPerCountry).filter (fun x => x.country == k)) := by
  obtain ⟨m, hm, -⟩ :=
    filter_flatten_take catalog target maxPerCountry k continentOrder (by decide)
  have hgd : (getDiverseCities catalog target maxPerCountry).filter (fun x => x.country == k)
      = (cappedBucket catalog maxPerCountry k).take m := hm
  have htt : (cappedBucket catalog maxPerCountry k).take m
      = (sortByPopDesc (bucketRaw catalog k)).take (min m maxPerCountry) := by
    unfold cappedBucket
    rw [List.take_take]
  have hsorted : List.Sorted (fun a b : City => b.population ≤ a.population)
      (sortByPopDesc (bucketRaw catalog k)) := by
    unfold sortByPopDesc
    exact List.sorted_insertionSort _ _
  constructor
  · rw [hgd, htt, List.length_take]
    omega
  · refine ⟨min m maxPerCountry, Nat.min_le_right _ _, by rw [hgd, htt], ?_⟩
    rw [hgd, htt]
    exact List.Pairwise.sublist (List.take_sublist _ _) hsorted

/-- Witness for C7 at a concrete catalog. -/
theorem c7_witness :
    ((getDiverseCities c6Catalog 4 10).filter (fun x => x.country == "X")).length ≤ 10 ∧
    ∃ m, m ≤ 10 ∧
      (getDiverseCities c6Catalog 4 10).filter (fun x => x.country == "X")
        = (sortByPopDesc (bucketRaw c6Catalog "X")).take m ∧
      List.Sorted (fun a b : City => b.population ≤ a.population)
        ((getDiverseCities c6Catalog 4 10).filter (fun x => x.country == "X")) :=
  c7_country_cap c6Catalog 4 10 (by decide) "X"

/-!
### Claim C8 — no duplicates
-/

/-- Claim C8: on a duplicate-free catalog (catalog records are distinct Python
objects) the sampler never selects the same record twice. -/
theorem c8_no_duplicates (catalog : List City) (target maxPerCountry : ℕ)
    (hnd : catalog.Nodup) : (getDiverseCities catalog target maxPerCountry).Nodup := by
  rw [List.nodup_iff_count_le_one]
  intro x
  have hcont : ∀ c : Continent,
      List.count x (selectForContinent catalog target maxPerCountry c) ≤ 1 ∧
      (List.count x (selectForContinent catalog target maxPerCountry c) ≠ 0 →
        x.country ∈ continentCountries catalog maxPerCountry c) := by
    intro c
    obtain ⟨idx2, hinv, -, -⟩ := selectForContinent_spec catalog target maxPerCountry c
    have hfil := hinv.1 x.country
    have hzero := hinv.2.2.1
    have hcount : List.count x (selectForContinent catalog target maxPerCountry c)
        = List.count x
            ((cappedBucket catalog maxPerCountry x.country).take (idx2 x.country)) := by
      rw [← hfil]
      exact (List.count_filter (by simp)).symm
    constructor
    · rw [hcount]
      calc List.count x ((cappedBucket catalog maxPerCountry x.country).take (idx2 x.country))
          ≤ List.count x (cappedBucket catalog maxPerCountry x.country) :=
            (List.take_sublist _ _).count_le x
        _ ≤ List.count x (sortByPopDesc (bucketRaw catalog x.country)) :=
            (List.take_sublist _ _).count_le x
        _ = List.count x (bucketRaw catalog x.country) := by
            unfold sortByPopDesc
            exact (List.perm_insertionSort _ _).count_eq x
        _ ≤ List.count x catalog := (List.filter_sublist _).count_le x
        _ ≤ 1 := List.nodup_iff_count_le_one.mp hnd x
    · intro hne
      by_contra hnk
      rw [hcount, hzero _ hnk] at hne
      simp at hne
  suffices h : ∀ (conts : List Continent), conts.Nodup →
      List.count x ((conts.map (selectForContinent catalog target maxPerCountry)).flatten)
        ≤ 1 by
    exact h continentOrder (by decide)
  intro conts
  induction conts with
  | nil => intro _; simp
  | cons c cs ih =>
    intro hnd2
    simp only [List.map_cons, List.flatten_cons, List.count_append]
    have h1 := hcont c
    by_cases hc0 : List.count x (selectForContinent catalog target maxPerCountry c) = 0
    · have h2 := ih (List.nodup_cons.mp hnd2).2
      omega
    · have hkc := h1.2 hc0
      have hcs : List.count x
          ((cs.map (selectForContinent catalog target maxPerCountry)).flatten) = 0 := by
        rw [List.count_flatten, List.map_map]
        apply List.sum_eq_zero
        intro n hn
        simp only [List.mem_map, Function.comp_apply] at hn
        obtain ⟨c2, hc2, hrfl⟩ := hn
        subst hrfl
        by_contra hne
        have hkc2 := (hcont c2).2 hne
        have hceq : c = c2 := continentCountries_unique hkc hkc2
        exact (List.nodup_cons.mp hnd2).1 (hceq ▸ hc2)
      have hle1 := h1.1
      omega

/-- Witness for C8 at a concrete catalog. -/
theorem c8_witness : (getDiverseCities c6Catalog 4 10).Nodup :=
  c8_no_duplicates c6Catalog 4 10 (by decide)

end Otherwhere
